import Mathlib

/-!
A shallow embedding of the zen3d particle system core, checked against its
natural-language specification.

Two subsystems are embedded from the TypeScript source:

* the gesture feature extractor (`processResults` in the HandTracker
  component): it turns one hand-landmark detection result per video frame
  into a smoothed `HandData` signal, with an exponential-decay path for
  frames with no hands;
* the particle state engine (the `animate` loop and the clap trigger in
  `handleHandUpdate` of the main App component): it morphs a particle
  position buffer toward a target cloud, applies the grab/tension pull,
  and runs the explosion impulse/decay physics.

JavaScript floating-point numbers are modelled as real numbers, the
`Float32Array` buffers as lists (of 2D landmarks, and of 3D vectors grouped
in triples), and `Math.random()` draws as explicit input streams.  The
renderer-owned scale/orientation handles are outside every claim and are
not modelled.
-/

open scoped Classical

noncomputable section

/-- A normalized 2D landmark point (the source ignores z). -/
structure Landmark where
  x : ℝ
  y : ℝ

/-- A detected hand: 21 ordered landmarks, index 0 is the wrist. -/
abbrev Hand := Fin 21 → Landmark

/-- The smoothing helper of the HandTracker:
`lerp(current, target, speed) = current + (target - current) * speed`. -/
def lerp (current tgt speed : ℝ) : ℝ := current + (tgt - current) * speed

/-- The base smoothing rate of the extractor (`smoothingSpeed = 0.15`). -/
def smoothingSpeed : ℝ := 0.15

/-- The hand used as out-of-range default when indexing a landmark list. -/
def defaultHand : Hand := fun _ => ⟨0, 0⟩

/-- Indexing into the detected-hands list (`results.landmarks[j]`). -/
def nthHand (hands : List Hand) (j : ℕ) : Hand := hands.getD j defaultHand

/-- Extractor smoothing state (`smoothedRef` in the source). -/
structure Smoothed where
  expansion : ℝ
  tension : ℝ
  centerX : ℝ
  centerY : ℝ
  rotation : ℝ
  twist : ℝ
  velocity : ℝ

/-- Previous-frame state (`prevFrameRef` in the source). -/
structure PrevFrame where
  centerX : ℝ
  centerY : ℝ
  timestamp : ℝ
  hand1Y : ℝ
  hand2Y : ℝ

/-- The signal emitted to the engine (`HandData` in the source). -/
structure HandData where
  expansion : ℝ
  tension : ℝ
  isPresent : Bool
  centerX : ℝ
  centerY : ℝ
  rotation : ℝ
  twist : ℝ
  velocity : ℝ
  grabbing : Bool

/-- Euclidean distance between two landmarks, as the source computes it. -/
def dist2D (a b : Landmark) : ℝ := Real.sqrt ((a.x - b.x) ^ 2 + (a.y - b.y) ^ 2)

/-- Fingertip landmark indices (`tips = [4, 8, 12, 16, 20]`). -/
def fingerTips : List (Fin 21) := [4, 8, 12, 16, 20]

/-- Per-hand tension: mean fingertip-to-wrist distance mapped and inverted,
`1 - clamp((avgDist - 0.12) * 5, 0, 1)`. -/
def handTension (h : Hand) : ℝ :=
  let avgDist := (fingerTips.map (fun i => dist2D (h i) (h 0))).sum / 5
  1 - max 0 (min 1 ((avgDist - 0.12) * 5))

/-- JavaScript `Math.sign` on real inputs. -/
def jsSign (x : ℝ) : ℝ := if 0 < x then 1 else if x < 0 then -1 else 0

/-- Raw expansion: wrist-to-wrist distance remapped by
`clamp((dist - 0.1) * 1.5, 0, 1)` when exactly two hands are present,
the neutral value 0.5 otherwise (the source initializes
`rawExpansion = 0.5` and only overwrites it in the two-hand branch). -/
def rawExpansionOf (hands : List Hand) : ℝ :=
  if hands.length = 2 then
    max 0 (min 1 ((dist2D (nthHand hands 0 0) (nthHand hands 1 0) - 0.1) * 1.5))
  else 0.5

/-- Raw rotation: non-zero only with two hands moving in opposite vertical
directions, scaled by 10 and clamped to [-1, 1]. -/
def rawRotationOf (prev : PrevFrame) (hands : List Hand) : ℝ :=
  if hands.length = 2 then
    let hand1YVel := (nthHand hands 0 0).y - prev.hand1Y
    let hand2YVel := (nthHand hands 1 0).y - prev.hand2Y
    if jsSign hand1YVel ≠ jsSign hand2YVel then
      max (-1) (min 1 ((hand2YVel - hand1YVel) * 10))
    else 0
  else 0

/-- Raw twist proxy: differential vertical velocity plus one hand's
horizontal displacement from the previous (mirrored) center, scaled by 5
and capped at 1. -/
def rawTwistOf (prev : PrevFrame) (hands : List Hand) : ℝ :=
  if hands.length = 2 then
    let hand1YVel := (nthHand hands 0 0).y - prev.hand1Y
    let hand2YVel := (nthHand hands 1 0).y - prev.hand2Y
    let hand1XVel := (nthHand hands 0 0).x - prev.centerX
    min 1 ((|hand1YVel - hand2YVel| + |hand1XVel|) * 5)
  else 0

/-- Raw tension: average of the per-hand tensions over all present hands. -/
def rawTensionOf (hands : List Hand) : ℝ := (hands.map handTension).sum / hands.length

/-- Frame-level grabbing flag: every present hand has tension above 0.6 and
exactly two hands are present (the source counts grabbing hands and compares
the count to the number of hands). -/
def grabbingOf (hands : List Hand) : Bool :=
  decide (hands.countP (fun h => decide ((0.6 : ℝ) < handTension h)) = hands.length
    ∧ hands.length = 2)

/-- Mean wrist x over all present hands, before mirroring. -/
def centerPreX (hands : List Hand) : ℝ := (hands.map (fun h => (h 0).x)).sum / hands.length

/-- Mean wrist y over all present hands, before mirroring. -/
def centerPreY (hands : List Hand) : ℝ := (hands.map (fun h => (h 0).y)).sum / hands.length

/-- The velocity update of the extractor: only when the elapsed time is in
(0, 0.5) seconds, blend `min(1, rawVelocity * 2)` into the smoothed velocity
at rate 0.3, where `rawVelocity` is the distance from the previous stored
center (`prevFrame.centerX/Y`, which the source stores in mirrored
coordinates) to the current raw center, divided by the elapsed time.
Outside that window the smoothed velocity is left unchanged. -/
def velocityStep (s : Smoothed) (prev : PrevFrame) (cx cy timestamp : ℝ) : ℝ :=
  let dt := (timestamp - prev.timestamp) / 1000
  if 0 < dt ∧ dt < 0.5 then
    let dx := cx - prev.centerX
    let dy := cy - prev.centerY
    let rawVelocity := Real.sqrt (dx ^ 2 + dy ^ 2) / dt
    lerp s.velocity (min 1 (rawVelocity * 2)) 0.3
  else s.velocity

/-- One extractor step: new smoothing state, new previous-frame state and
the emitted signal. -/
structure ExtractStep where
  smoothed : Smoothed
  prev : PrevFrame
  out : HandData

/-- One call of `processResults(results, timestamp)`, the whole extractor
update. The empty list is the no-hands branch (decay to neutral); a
nonempty list is the active branch. -/
def processResults (s : Smoothed) (prev : PrevFrame) (hands : List Hand)
    (timestamp : ℝ) : ExtractStep :=
  match hands with
  | [] =>
      let s' : Smoothed :=
        { expansion := lerp s.expansion 0.5 0.05
          tension := lerp s.tension 0 0.05
          centerX := s.centerX
          centerY := s.centerY
          rotation := lerp s.rotation 0 0.05
          twist := lerp s.twist 0 0.05
          velocity := lerp s.velocity 0 0.1 }
      { smoothed := s'
        prev := prev
        out :=
          { expansion := s'.expansion, tension := s'.tension, isPresent := false
            centerX := s'.centerX, centerY := s'.centerY, rotation := s'.rotation
            twist := s'.twist, velocity := s'.velocity, grabbing := false } }
  | _ :: _ =>
      let cx := centerPreX hands
      let cy := centerPreY hands
      let newVelocity := velocityStep s prev cx cy timestamp
      let mx := (1 - cx) * 2 - 1
      let my := -((1 - cy) * 2 - 1)
      let prev' : PrevFrame :=
        { centerX := mx, centerY := my, timestamp := timestamp
          hand1Y := if hands.length = 2 then (nthHand hands 0 0).y else prev.hand1Y
          hand2Y := if hands.length = 2 then (nthHand hands 1 0).y else prev.hand2Y }
      let s' : Smoothed :=
        { expansion := lerp s.expansion (rawExpansionOf hands) smoothingSpeed
          tension := lerp s.tension (rawTensionOf hands) smoothingSpeed
          centerX := lerp s.centerX mx smoothingSpeed
          centerY := lerp s.centerY my smoothingSpeed
          rotation := lerp s.rotation (rawRotationOf prev hands) (smoothingSpeed * 0.5)
          twist := lerp s.twist (rawTwistOf prev hands) (smoothingSpeed * 0.3)
          velocity := newVelocity }
      { smoothed := s'
        prev := prev'
        out :=
          { expansion := s'.expansion, tension := s'.tension, isPresent := true
            centerX := s'.centerX, centerY := s'.centerY, rotation := s'.rotation
            twist := s'.twist, velocity := s'.velocity, grabbing := grabbingOf hands } }

/-- Initial smoothing state of the extractor. -/
def initSmoothed : Smoothed := ⟨0.5, 0, 0, 0, 0, 0, 0⟩

/-- Initial previous-frame state of the extractor. -/
def initPrev : PrevFrame := ⟨0, 0, 0, 0, 0⟩

/-- A 3D vector, one particle's slice of a flat `Float32Array`. -/
@[ext] structure V3 where
  x : ℝ
  y : ℝ
  z : ℝ

/-- The zero vector. -/
def V3.zero : V3 := ⟨0, 0, 0⟩

/-- `CONFIG.explosionForce = 2.0`. -/
def explosionForce : ℝ := 2.0

/-- `CONFIG.explosionDecay = 0.92`. -/
def explosionDecay : ℝ := 0.92

/-- `CONFIG.lerpSpeed = 0.035`, the morph interpolation factor. -/
def lerpSpeed : ℝ := 0.035

/-- Engine-owned mutable state (positions, explosion velocities, targets,
explosion flag). -/
structure EngineState where
  positions : List V3
  velocities : List V3
  targets : List V3
  explosionActive : Bool

/-- Scalar scaling of a vector, written component-first as in the source. -/
def vsmul (c : ℝ) (v : V3) : V3 := ⟨v.x * c, v.y * c, v.z * c⟩

/-- Scalar scaling of a whole buffer. -/
def vscale (c : ℝ) (l : List V3) : List V3 := l.map (vsmul c)

/-- The per-particle impulse assigned at clap time:
`dist = Math.sqrt(x*x + y*y + z*z) || 1` (the JavaScript falsy fallback
fires only when the square root is exactly zero), then each component is
`(component / dist) * force` with
`force = explosionForce * (0.7 + Math.random() * 0.6)`. -/
def triggerVel (rand : ℕ → ℝ) (i : ℕ) (p : V3) : V3 :=
  let dist0 := Real.sqrt (p.x ^ 2 + p.y ^ 2 + p.z ^ 2)
  let dist := if dist0 = 0 then 1 else dist0
  let force := explosionForce * (0.7 + rand i * 0.6)
  ⟨p.x / dist * force, p.y / dist * force, p.z / dist * force⟩

/-- Map with an explicit running index, for per-particle random draws. -/
def mapIdxFrom (f : ℕ → V3 → V3) : ℕ → List V3 → List V3
  | _, [] => []
  | k, p :: ps => f k p :: mapIdxFrom f (k + 1) ps

/-- The clap detection in `handleHandUpdate`: when the signal velocity
exceeds 0.4, the expansion is below 0.25 and no explosion is active,
assign every particle its impulse velocity and set the flag; otherwise the
engine state is untouched. -/
def handleHandUpdate (rand : ℕ → ℝ) (data : HandData) (st : EngineState) : EngineState :=
  if 0.4 < data.velocity ∧ data.expansion < 0.25 ∧ st.explosionActive = false then
    { st with
      velocities := mapIdxFrom (triggerVel rand) 0 st.positions
      explosionActive := true }
  else st

/-- The grab/tension pull on a particle's resolved target point:
with `tension = isPresent ? hand.tension : 0`, if grabbing or tension
above 0.5, multiply each target coordinate by `1 - pull` with
`pull = grabbing ? 0.6 : (tension - 0.5) * 0.8`. -/
def pullTarget (hand : HandData) (t : V3) : V3 :=
  let tension := if hand.isPresent then hand.tension else 0
  if hand.grabbing = true ∨ 0.5 < tension then
    let pull := if hand.grabbing = true then (0.6 : ℝ) else (tension - 0.5) * 0.8
    ⟨t.x * (1 - pull), t.y * (1 - pull), t.z * (1 - pull)⟩
  else t

/-- One particle's update inside the tick loop. When the explosion is
active: add the velocity to the position, decay the velocity by
`explosionDecay`, then blend the position toward the pulled target at
`lerpSpeed * 0.4`. Otherwise: blend at `lerpSpeed` and add tension-scaled
jitter, leaving the velocity untouched. -/
def stepP (hand : HandData) (active : Bool) (jit : ℕ → ℝ) (i : ℕ) (p v t : V3) : V3 × V3 :=
  let tension := if hand.isPresent then hand.tension else 0
  let jitterAmt := tension * 0.1
  let t' := pullTarget hand t
  if active then
    let p1 : V3 := ⟨p.x + v.x, p.y + v.y, p.z + v.z⟩
    let v' : V3 := ⟨v.x * explosionDecay, v.y * explosionDecay, v.z * explosionDecay⟩
    (⟨p1.x + (t'.x - p1.x) * (lerpSpeed * 0.4),
      p1.y + (t'.y - p1.y) * (lerpSpeed * 0.4),
      p1.z + (t'.z - p1.z) * (lerpSpeed * 0.4)⟩, v')
  else
    (⟨p.x + (t'.x - p.x) * lerpSpeed + (jit (3 * i) - 0.5) * jitterAmt,
      p.y + (t'.y - p.y) * lerpSpeed + (jit (3 * i + 1) - 0.5) * jitterAmt,
      p.z + (t'.z - p.z) * lerpSpeed + (jit (3 * i + 2) - 0.5) * jitterAmt⟩, v)

/-- The particle loop over the three parallel buffers. -/
def stepParticles (hand : HandData) (active : Bool) (jit : ℕ → ℝ) :
    ℕ → List V3 → List V3 → List V3 → List V3 × List V3
  | i, p :: ps, v :: vs, t :: ts =>
      let pv := stepP hand active jit i p v t
      let rest := stepParticles hand active jit (i + 1) ps vs ts
      (pv.1 :: rest.1, pv.2 :: rest.2)
  | _, _, _, _ => ([], [])

/-- The aggregate velocity magnitude of one particle: the sum of the
absolute per-axis components, as the source computes `vel`. -/
def agg (v : V3) : ℝ := |v.x| + |v.y| + |v.z|

/-- The running maximum `maxVel` over a velocity buffer (0 when empty). -/
def maxAgg (l : List V3) : ℝ := l.foldr (fun v m => max (agg v) m) 0

/-- One render tick of the engine: update every particle, then clear the
explosion flag when it was active and the largest decayed aggregate
velocity fell below 0.008. Targets are read-only for the tick. -/
def tick (hand : HandData) (jit : ℕ → ℝ) (st : EngineState) : EngineState :=
  let pv := stepParticles hand st.explosionActive jit 0 st.positions st.velocities st.targets
  { positions := pv.1
    velocities := pv.2
    targets := st.targets
    explosionActive :=
      if st.explosionActive = true ∧ maxAgg pv.2 < 0.008 then false else st.explosionActive }

/-- A shape change: the targets buffer is replaced wholesale, nothing else
is touched (`stateRef.current.targets = generateParticles(activeShape)`). -/
def setTargets (st : EngineState) (newTargets : List V3) : EngineState :=
  { st with targets := newTargets }

/-- The engine state at startup: a generated position cloud, all-zero
explosion velocities of matching length, no active explosion, a generated
target cloud. The two stochastic `generateParticles` results are
parameters. -/
def initEngine (pos tgts : List V3) : EngineState :=
  ⟨pos, List.replicate pos.length V3.zero, tgts, false⟩

/-- Iterated engine ticks with per-tick signal and jitter streams. -/
def engineRun (hands : ℕ → HandData) (jits : ℕ → ℕ → ℝ) (st : EngineState) : ℕ → EngineState
  | 0 => st
  | k + 1 => tick (hands k) (jits k) (engineRun hands jits st k)

/-- The states the engine can be in: start state, render ticks, signal
updates (which contain the clap trigger), and shape changes. These are the
only writers of the engine state in the source. -/
inductive Reachable : EngineState → Prop
  | start (pos tgts : List V3) : Reachable (initEngine pos tgts)
  | step (hand : HandData) (jit : ℕ → ℝ) {st : EngineState} :
      Reachable st → Reachable (tick hand jit st)
  | signal (rand : ℕ → ℝ) (data : HandData) {st : EngineState} :
      Reachable st → Reachable (handleHandUpdate rand data st)
  | reshape (newTargets : List V3) {st : EngineState} :
      Reachable st → Reachable (setTargets st newTargets)

/-- All smoothed extractor fields inside their documented ranges. -/
def SmoothedInRange (s : Smoothed) : Prop :=
  0 ≤ s.expansion ∧ s.expansion ≤ 1 ∧ 0 ≤ s.tension ∧ s.tension ≤ 1 ∧
    0 ≤ s.twist ∧ s.twist ≤ 1 ∧ -1 ≤ s.rotation ∧ s.rotation ≤ 1 ∧
    -1 ≤ s.centerX ∧ s.centerX ≤ 1 ∧ -1 ≤ s.centerY ∧ s.centerY ≤ 1 ∧
    0 ≤ s.velocity ∧ s.velocity ≤ 1

/-- Every landmark of every hand within normalized coordinate space. -/
def HandsInUnit (hands : List Hand) : Prop :=
  ∀ h ∈ hands, ∀ i : Fin 21,
    0 ≤ (h i).x ∧ (h i).x ≤ 1 ∧ 0 ≤ (h i).y ∧ (h i).y ≤ 1

/-- The emitted signal's documented bounds. -/
def OutInRange (d : HandData) : Prop :=
  0 ≤ d.expansion ∧ d.expansion ≤ 1 ∧ 0 ≤ d.tension ∧ d.tension ≤ 1 ∧
    0 ≤ d.twist ∧ d.twist ≤ 1 ∧ -1 ≤ d.rotation ∧ d.rotation ≤ 1 ∧
    -1 ≤ d.centerX ∧ d.centerX ≤ 1 ∧ -1 ≤ d.centerY ∧ d.centerY ≤ 1

/-- A signal with no hand: at rest, absent, not grabbing. -/
def idleHand : HandData := ⟨0.5, 0, false, 0, 0, 0, 0, 0, false⟩

/-- A signal satisfying the clap trigger condition. -/
def clapData : HandData := ⟨0.1, 0, true, 0, 0, 0, 0, 0.5, false⟩

/-- A present grabbing signal. -/
def grabHand : HandData := ⟨0.5, 0, true, 0, 0, 0, 0, 0, true⟩

/-- A present high-tension signal (tension 0.75, not grabbing). -/
def tenseHand : HandData := ⟨0.5, 0.75, true, 0, 0, 0, 0, 0, false⟩

/-- An all-zero random stream. -/
def zeroRand : ℕ → ℝ := fun _ => 0

/-- A constant idle signal stream. -/
def idleHands : ℕ → HandData := fun _ => idleHand

/-- An all-zero jitter stream for every tick. -/
def zeroJits : ℕ → ℕ → ℝ := fun _ _ => 0

/-- A hand whose 21 landmarks all sit at (1/3, 1/2): its raw center is a
fixed point of the x-mirroring but not of the y-mirroring. -/
def constHand : Hand := fun _ => ⟨1 / 3, 1 / 2⟩

/-- A smoothing state equal to the initial one except twist = 1. -/
def twistOneSmoothed : Smoothed := ⟨0.5, 0, 0, 0, 0, 1, 0⟩

/-- Engine state for the C1 counterexample: one particle exactly at the
scene origin, no explosion active. -/
def stOrigin : EngineState := ⟨[V3.zero], [V3.zero], [], false⟩

/-- Engine state for the C1 witness: one particle away from the origin. -/
def stOffOrigin : EngineState := ⟨[⟨1, 0, 0⟩], [V3.zero], [], false⟩

/-- Engine state for the C4 counterexample: active explosion whose only
particle already sits at the deactivation boundary. -/
def stBoundary : EngineState := ⟨[V3.zero], [⟨0.008, 0, 0⟩], [V3.zero], true⟩

/-- Engine state for the C2 witness: an active explosion with unit impulse. -/
def stImpulse : EngineState := ⟨[V3.zero], [⟨1, 0, 0⟩], [V3.zero], true⟩

/-- Engine state for the C7 witness. -/
def stMorph : EngineState := ⟨[⟨1, 0, 0⟩], [V3.zero], [V3.zero], false⟩

/-- Both buffer-length equalities the tick loop relies on. -/
def LenOK (st : EngineState) : Prop :=
  st.positions.length = st.targets.length ∧ st.velocities.length = st.targets.length

lemma lerp_mem {lo hi a b c : ℝ} (ha : lo ≤ a ∧ a ≤ hi) (hb : lo ≤ b ∧ b ≤ hi)
    (hc0 : 0 ≤ c) (hc1 : c ≤ 1) : lo ≤ lerp a b c ∧ lerp a b c ≤ hi := by
  unfold lerp
  constructor <;> nlinarith [ha.1, ha.2, hb.1, hb.2]

lemma clamp01_mem (x : ℝ) : 0 ≤ max 0 (min 1 x) ∧ max 0 (min 1 x) ≤ 1 :=
  ⟨le_max_left _ _, max_le (by norm_num) (min_le_left _ _)⟩

lemma clampPM1_mem (x : ℝ) : -1 ≤ max (-1) (min 1 x) ∧ max (-1) (min 1 x) ≤ 1 :=
  ⟨le_max_left _ _, max_le (by norm_num) (min_le_left _ _)⟩

lemma sum_bounds {lo hi : ℝ} : ∀ l : List ℝ, (∀ x ∈ l, lo ≤ x ∧ x ≤ hi) →
    lo * l.length ≤ l.sum ∧ l.sum ≤ hi * l.length := by
  intro l
  induction l with
  | nil => intro _; simp
  | cons a t ih =>
      intro h
      have ha := h a (List.mem_cons_self a t)
      have ht := ih fun x hx => h x (List.mem_cons_of_mem a hx)
      simp only [List.sum_cons, List.length_cons]
      push_cast
      constructor <;> nlinarith [ht.1, ht.2, ha.1, ha.2]

lemma mean_mem {lo hi : ℝ} (l : List ℝ) (hne : l ≠ [])
    (h : ∀ x ∈ l, lo ≤ x ∧ x ≤ hi) :
    lo ≤ l.sum / l.length ∧ l.sum / l.length ≤ hi := by
  have hlen : (0 : ℝ) < l.length := by
    have := List.length_pos.mpr hne
    exact_mod_cast this
  have hb := sum_bounds l h
  constructor
  · rw [le_div_iff hlen]
    linarith [hb.1]
  · rw [div_le_iff hlen]
    linarith [hb.2]

lemma handTension_mem (h : Hand) : 0 ≤ handTension h ∧ handTension h ≤ 1 := by
  have hc := clamp01_mem (((fingerTips.map fun i => dist2D (h i) (h 0)).sum / 5 - 0.12) * 5)
  simp only [handTension]
  constructor <;> nlinarith [hc.1, hc.2]

lemma rawExpansionOf_mem (hands : List Hand) :
    0 ≤ rawExpansionOf hands ∧ rawExpansionOf hands ≤ 1 := by
  simp only [rawExpansionOf]
  split
  · exact clamp01_mem _
  · norm_num

lemma rawRotationOf_mem (prev : PrevFrame) (hands : List Hand) :
    -1 ≤ rawRotationOf prev hands ∧ rawRotationOf prev hands ≤ 1 := by
  simp only [rawRotationOf]
  split
  · split
    · exact clampPM1_mem _
    · norm_num
  · norm_num

lemma rawTwistOf_mem (prev : PrevFrame) (hands : List Hand) :
    0 ≤ rawTwistOf prev hands ∧ rawTwistOf prev hands ≤ 1 := by
  simp only [rawTwistOf]
  split
  · refine ⟨le_min (by norm_num) (by positivity), min_le_left _ _⟩
  · norm_num

lemma rawTensionOf_mem (hands : List Hand) (hne : hands ≠ []) :
    0 ≤ rawTensionOf hands ∧ rawTensionOf hands ≤ 1 := by
  unfold rawTensionOf
  have hmap : (hands.map handTension) ≠ [] := by
    simpa using hne
  have hb : ∀ x ∈ hands.map handTension, (0 : ℝ) ≤ x ∧ x ≤ 1 := by
    intro x hx
    obtain ⟨h, _, rfl⟩ := List.mem_map.mp hx
    exact handTension_mem h
  have := @mean_mem 0 1 (hands.map handTension) hmap hb
  rwa [List.length_map] at this

lemma centerPreX_mem (hands : List Hand) (hne : hands ≠ []) (hu : HandsInUnit hands) :
    0 ≤ centerPreX hands ∧ centerPreX hands ≤ 1 := by
  unfold centerPreX
  have hmap : (hands.map fun h => (h 0).x) ≠ [] := by simpa using hne
  have hb : ∀ x ∈ hands.map fun h => (h 0).x, (0 : ℝ) ≤ x ∧ x ≤ 1 := by
    intro x hx
    obtain ⟨h, hh, rfl⟩ := List.mem_map.mp hx
    exact ⟨(hu h hh 0).1, (hu h hh 0).2.1⟩
  have := @mean_mem 0 1 (hands.map fun h => (h 0).x) hmap hb
  rwa [List.length_map] at this

lemma centerPreY_mem (hands : List Hand) (hne : hands ≠ []) (hu : HandsInUnit hands) :
    0 ≤ centerPreY hands ∧ centerPreY hands ≤ 1 := by
  unfold centerPreY
  have hmap : (hands.map fun h => (h 0).y) ≠ [] := by simpa using hne
  have hb : ∀ x ∈ hands.map fun h => (h 0).y, (0 : ℝ) ≤ x ∧ x ≤ 1 := by
    intro x hx
    obtain ⟨h, hh, rfl⟩ := List.mem_map.mp hx
    exact ⟨(hu h hh 0).2.2.1, (hu h hh 0).2.2.2⟩
  have := @mean_mem 0 1 (hands.map fun h => (h 0).y) hmap hb
  rwa [List.length_map] at this

lemma velocityStep_mem (s : Smoothed) (prev : PrevFrame) (cx cy timestamp : ℝ)
    (hv : 0 ≤ s.velocity ∧ s.velocity ≤ 1) :
    0 ≤ velocityStep s prev cx cy timestamp ∧ velocityStep s prev cx cy timestamp ≤ 1 := by
  simp only [velocityStep]
  split
  case isTrue hdt =>
    refine lerp_mem hv ⟨?_, min_le_left _ _⟩ (by norm_num) (by norm_num)
    refine le_min (by norm_num) ?_
    have hs : (0 : ℝ) ≤ Real.sqrt ((cx - prev.centerX) ^ 2 + (cy - prev.centerY) ^ 2) :=
      Real.sqrt_nonneg _
    have hdtpos := hdt.1
    positivity
  case isFalse => exact hv

lemma agg_nonneg (v : V3) : 0 ≤ agg v := by
  unfold agg
  positivity

lemma maxAgg_nil : maxAgg [] = 0 := rfl

lemma maxAgg_cons (v : V3) (l : List V3) : maxAgg (v :: l) = max (agg v) (maxAgg l) := rfl

lemma maxAgg_nonneg (l : List V3) : 0 ≤ maxAgg l := by
  induction l with
  | nil => exact le_refl 0
  | cons v t ih => exact le_trans ih ((maxAgg_cons v t) ▸ le_max_right _ _)

lemma maxAgg_lt_iff {c : ℝ} (hc : 0 < c) (l : List V3) :
    maxAgg l < c ↔ ∀ v ∈ l, agg v < c := by
  induction l with
  | nil => simpa [maxAgg_nil] using hc
  | cons v t ih =>
      rw [maxAgg_cons, max_lt_iff]
      constructor
      · rintro ⟨h1, h2⟩ w hw
        rcases List.mem_cons.mp hw with rfl | hw
        · exact h1
        · exact (ih.mp h2) w hw
      · intro h
        exact ⟨h v (List.mem_cons_self v t), ih.mpr fun w hw => h w (List.mem_cons_of_mem v hw)⟩

lemma agg_le_maxAgg {v : V3} {l : List V3} (h : v ∈ l) : agg v ≤ maxAgg l := by
  induction l with
  | nil => cases h
  | cons w t ih =>
      rw [maxAgg_cons]
      rcases List.mem_cons.mp h with rfl | h
      · exact le_max_left _ _
      · exact le_trans (ih h) (le_max_right _ _)

lemma agg_vsmul {c : ℝ} (hc : 0 ≤ c) (v : V3) : agg (vsmul c v) = c * agg v := by
  simp only [agg, vsmul, abs_mul, abs_of_nonneg hc]
  ring

lemma maxAgg_vscale {c : ℝ} (hc : 0 ≤ c) (l : List V3) :
    maxAgg (vscale c l) = c * maxAgg l := by
  induction l with
  | nil => simp [vscale, maxAgg_nil]
  | cons v t ih =>
      simp only [vscale, List.map_cons, maxAgg_cons] at *
      rw [ih, agg_vsmul hc, mul_max_of_nonneg _ _ hc]

lemma vscale_one (l : List V3) : vscale 1 l = l := by
  induction l with
  | nil => rfl
  | cons v t ih => simp only [vscale, List.map_cons, vsmul, mul_one] at *; rw [ih]

lemma vscale_vscale (a b : ℝ) (l : List V3) : vscale a (vscale b l) = vscale (b * a) l := by
  induction l with
  | nil => rfl
  | cons v t ih =>
      simp only [vscale, List.map_cons, vsmul, mul_assoc] at *
      rw [ih]

lemma maxAgg_replicate_zero (n : ℕ) : maxAgg (List.replicate n V3.zero) = 0 := by
  induction n with
  | zero => rfl
  | succ k ih =>
      rw [List.replicate_succ, maxAgg_cons, ih]
      simp [agg, V3.zero]

lemma mapIdxFrom_length (f : ℕ → V3 → V3) : ∀ (k : ℕ) (l : List V3),
    (mapIdxFrom f k l).length = l.length := by
  intro k l
  induction l generalizing k with
  | nil => rfl
  | cons p ps ih => simp [mapIdxFrom, ih]

lemma mapIdxFrom_getD (f : ℕ → V3 → V3) : ∀ (l : List V3) (k i : ℕ), i < l.length →
    (mapIdxFrom f k l).getD i V3.zero = f (k + i) (l.getD i V3.zero) := by
  intro l
  induction l with
  | nil => intro k i hi; simp at hi
  | cons p ps ih =>
      intro k i hi
      cases i with
      | zero => simp [mapIdxFrom]
      | succ j =>
          simp only [mapIdxFrom, List.getD_cons_succ]
          rw [ih (k + 1) j (by simpa using Nat.lt_of_succ_lt_succ hi)]
          ring_nf

lemma stepParticles_len (hand : HandData) (active : Bool) (jit : ℕ → ℝ) :
    ∀ (ts ps vs : List V3) (k : ℕ), ps.length = ts.length → vs.length = ts.length →
      (stepParticles hand active jit k ps vs ts).1.length = ts.length ∧
      (stepParticles hand active jit k ps vs ts).2.length = ts.length := by
  intro ts
  induction ts with
  | nil =>
      intro ps vs k hp hv
      rw [List.length_nil] at hp hv
      rw [List.length_eq_zero.mp hp, List.length_eq_zero.mp hv]
      simp [stepParticles]
  | cons t ts ih =>
      intro ps vs k hp hv
      cases ps with
      | nil => simp at hp
      | cons p ps =>
          cases vs with
          | nil => simp at hv
          | cons v vs =>
              simp only [List.length_cons, Nat.succ_inj] at hp hv
              have := ih ps vs (k + 1) hp hv
              simp [stepParticles, this.1, this.2]

lemma stepParticles_snd_active (hand : HandData) (jit : ℕ → ℝ) :
    ∀ (ts ps vs : List V3) (k : ℕ), ps.length = ts.length → vs.length = ts.length →
      (stepParticles hand true jit k ps vs ts).2 = vscale explosionDecay vs := by
  intro ts
  induction ts with
  | nil =>
      intro ps vs k hp hv
      rw [List.length_nil] at hp hv
      rw [List.length_eq_zero.mp hp, List.length_eq_zero.mp hv]
      simp [stepParticles, vscale]
  | cons t ts ih =>
      intro ps vs k hp hv
      cases ps with
      | nil => simp at hp
      | cons p ps =>
          cases vs with
          | nil => simp at hv
          | cons v vs =>
              simp only [List.length_cons, Nat.succ_inj] at hp hv
              simp only [stepParticles, stepP, if_true, vscale, List.map_cons]
              rw [ih ps vs (k + 1) hp hv]
              simp [vsmul, vscale]

lemma stepParticles_snd_inactive (hand : HandData) (jit : ℕ → ℝ) :
    ∀ (ts ps vs : List V3) (k : ℕ), ps.length = ts.length → vs.length = ts.length →
      (stepParticles hand false jit k ps vs ts).2 = vs := by
  intro ts
  induction ts with
  | nil =>
      intro ps vs k hp hv
      rw [List.length_nil] at hp hv
      rw [List.length_eq_zero.mp hp, List.length_eq_zero.mp hv]
      simp [stepParticles]
  | cons t ts ih =>
      intro ps vs k hp hv
      cases ps with
      | nil => simp at hp
      | cons p ps =>
          cases vs with
          | nil => simp at hv
          | cons v vs =>
              simp only [List.length_cons, Nat.succ_inj] at hp hv
              simp only [stepParticles, stepP]
              rw [ih ps vs (k + 1) hp hv]
              simp

lemma stepParticles_snd_mem_inactive (hand : HandData) (jit : ℕ → ℝ) :
    ∀ (ts ps vs : List V3) (k : ℕ) (w : V3),
      w ∈ (stepParticles hand false jit k ps vs ts).2 → w ∈ vs := by
  intro ts
  induction ts with
  | nil =>
      intro ps vs k w hw
      cases ps <;> cases vs <;> simp [stepParticles] at hw
  | cons t ts ih =>
      intro ps vs k w hw
      cases ps with
      | nil => simp [stepParticles] at hw
      | cons p ps =>
          cases vs with
          | nil => simp [stepParticles] at hw
          | cons v vs =>
              simp only [stepParticles, stepP] at hw
              simp only [Bool.false_eq_true, if_false, List.mem_cons] at hw
              rcases hw with rfl | hw
              · exact List.mem_cons_self _ _
              · exact List.mem_cons_of_mem _ (ih ps vs (k + 1) w hw)

lemma tick_targets (hand : HandData) (jit : ℕ → ℝ) (st : EngineState) :
    (tick hand jit st).targets = st.targets := rfl

lemma setTargets_positions (st : EngineState) (ts : List V3) :
    (setTargets st ts).positions = st.positions := rfl

lemma tick_active_velocities (hand : HandData) (jit : ℕ → ℝ) (st : EngineState)
    (hact : st.explosionActive = true) (hl : LenOK st) :
    (tick hand jit st).velocities = vscale explosionDecay st.velocities := by
  simp only [tick]
  rw [hact]
  exact (stepParticles_snd_active hand jit st.targets st.positions st.velocities 0 hl.1 hl.2)

lemma tick_active_flag (hand : HandData) (jit : ℕ → ℝ) (st : EngineState)
    (hact : st.explosionActive = true) (hl : LenOK st) :
    ((tick hand jit st).explosionActive = true ↔
      0.008 ≤ maxAgg (vscale explosionDecay st.velocities)) := by
  have hv : (stepParticles hand st.explosionActive jit 0 st.positions st.velocities
      st.targets).2 = vscale explosionDecay st.velocities := by
    rw [hact]
    exact stepParticles_snd_active hand jit st.targets st.positions st.velocities 0 hl.1 hl.2
  simp only [tick]
  rw [hv, hact]
  by_cases hc : maxAgg (vscale explosionDecay st.velocities) < 0.008
  · rw [if_pos ⟨rfl, hc⟩]
    simp [not_le.mpr hc]
  · rw [if_neg (by simpa using hc)]
    simp [le_of_not_lt hc]

lemma tick_inactive_all (hand : HandData) (jit : ℕ → ℝ) (st : EngineState)
    (hact : st.explosionActive = false) (hl : LenOK st) :
    (tick hand jit st).velocities = st.velocities ∧
      (tick hand jit st).explosionActive = false := by
  have hv : (stepParticles hand st.explosionActive jit 0 st.positions st.velocities
      st.targets).2 = st.velocities := by
    rw [hact]
    exact stepParticles_snd_inactive hand jit st.targets st.positions st.velocities 0 hl.1 hl.2
  constructor
  · simp only [tick]
    exact hv
  · simp only [tick]
    rw [hact]
    simp

lemma tick_lenOK (hand : HandData) (jit : ℕ → ℝ) (st : EngineState) (hl : LenOK st) :
    LenOK (tick hand jit st) := by
  have := stepParticles_len hand st.explosionActive jit st.targets st.positions
    st.velocities 0 hl.1 hl.2
  exact ⟨this.1, this.2⟩

lemma engineRun_zero (hands : ℕ → HandData) (jits : ℕ → ℕ → ℝ) (st : EngineState) :
    engineRun hands jits st 0 = st := rfl

lemma engineRun_succ (hands : ℕ → HandData) (jits : ℕ → ℕ → ℝ) (st : EngineState) (k : ℕ) :
    engineRun hands jits st (k + 1) = tick (hands k) (jits k) (engineRun hands jits st k) := rfl

lemma effTension_zero {hand : HandData} (ht : hand.tension = 0) :
    (if hand.isPresent then hand.tension else 0) = 0 := by
  cases hand.isPresent <;> simp [ht]

lemma pullTarget_calm {hand : HandData} (hg : hand.grabbing = false)
    (ht : hand.tension = 0) (t : V3) : pullTarget hand t = t := by
  simp only [pullTarget]
  rw [effTension_zero ht, if_neg]
  push_neg
  exact ⟨by simp [hg], by norm_num⟩

lemma stepParticles_fst_getD_calm (hand : HandData) (jit : ℕ → ℝ)
    (hg : hand.grabbing = false) (ht : hand.tension = 0) :
    ∀ (ts ps vs : List V3) (k i : ℕ), ps.length = ts.length → vs.length = ts.length →
      i < ts.length →
      (stepParticles hand false jit k ps vs ts).1.getD i V3.zero =
        ⟨(ps.getD i V3.zero).x + ((ts.getD i V3.zero).x - (ps.getD i V3.zero).x) * lerpSpeed,
         (ps.getD i V3.zero).y + ((ts.getD i V3.zero).y - (ps.getD i V3.zero).y) * lerpSpeed,
         (ps.getD i V3.zero).z + ((ts.getD i V3.zero).z - (ps.getD i V3.zero).z) * lerpSpeed⟩ := by
  intro ts
  induction ts with
  | nil => intro ps vs k i hp hv hi; simp at hi
  | cons t ts ih =>
      intro ps vs k i hp hv hi
      cases ps with
      | nil => simp at hp
      | cons p ps =>
          cases vs with
          | nil => simp at hv
          | cons v vs =>
              simp only [List.length_cons, Nat.succ_inj] at hp hv
              cases i with
              | zero =>
                  simp only [stepParticles, List.getD_cons_zero]
                  simp only [stepP, effTension_zero ht, pullTarget_calm hg ht]
                  simp [mul_zero, add_zero]
              | succ j =>
                  simp only [stepParticles, List.getD_cons_succ]
                  exact ih ps vs (k + 1) j hp hv (by simpa using Nat.lt_of_succ_lt_succ hi)

lemma closer_after_lerp {p t : ℝ} (h : p ≠ t) :
    |(p + (t - p) * lerpSpeed) - t| < |p - t| := by
  have h1 : (p + (t - p) * lerpSpeed) - t = (p - t) * (1 - lerpSpeed) := by ring
  rw [h1, abs_mul]
  have h2 : 0 < |p - t| := abs_pos.mpr (sub_ne_zero.mpr h)
  have h3 : |1 - lerpSpeed| < 1 := by
    rw [lerpSpeed, abs_of_pos] <;> norm_num
  nlinarith

/-- Claim C9 (confirmed): in the per-particle update, when grabbing is true
or the effective tension exceeds 0.5, the resolved target is pulled toward
the origin by multiplying each coordinate by one minus a pull fraction; the
grabbing pull is the fixed constant 0.6, strictly larger than the
tension-driven fraction `(tension - 0.5) * 0.8` for every tension in
(0.5, 1]; the targets buffer is never modified by the tick. -/
theorem pullTargetBehavior (hand : HandData) (jit : ℕ → ℝ) (st : EngineState) (t : V3) :
    (hand.grabbing = true →
      pullTarget hand t = ⟨t.x * (1 - 0.6), t.y * (1 - 0.6), t.z * (1 - 0.6)⟩) ∧
    (hand.grabbing = false → hand.isPresent = true → 0.5 < hand.tension →
      pullTarget hand t =
        ⟨t.x * (1 - (hand.tension - 0.5) * 0.8),
         t.y * (1 - (hand.tension - 0.5) * 0.8),
         t.z * (1 - (hand.tension - 0.5) * 0.8)⟩) ∧
    (∀ tn : ℝ, 0.5 < tn → tn ≤ 1 → (tn - 0.5) * 0.8 < 0.6) ∧
    (tick hand jit st).targets = st.targets := by
  refine ⟨?_, ?_, ?_, rfl⟩
  · intro hg
    simp only [pullTarget]
    rw [if_pos (Or.inl hg), if_pos hg]
  · intro hg hp ht
    simp only [pullTarget, hp, if_true]
    rw [if_pos (Or.inr ht), if_neg (by simp [hg])]
  · intro tn h1 h2
    nlinarith

/-- Witness for C9 at concrete inputs: a grabbing hand pulls by the fixed
0.6, a tension-0.75 hand pulls by 0.2, and 0.2 is below 0.6. -/
theorem pullTargetBehaviorWitness :
    grabHand.grabbing = true ∧
    pullTarget grabHand ⟨1, 2, 3⟩ = ⟨1 * (1 - 0.6), 2 * (1 - 0.6), 3 * (1 - 0.6)⟩ ∧
    tenseHand.grabbing = false ∧ tenseHand.isPresent = true ∧
    (0.5 : ℝ) < tenseHand.tension ∧
    pullTarget tenseHand ⟨1, 2, 3⟩ =
      ⟨1 * (1 - (tenseHand.tension - 0.5) * 0.8),
       2 * (1 - (tenseHand.tension - 0.5) * 0.8),
       3 * (1 - (tenseHand.tension - 0.5) * 0.8)⟩ ∧
    (tick grabHand zeroRand stMorph).targets = stMorph.targets :=
  ⟨rfl,
   (pullTargetBehavior grabHand zeroRand stMorph ⟨1, 2, 3⟩).1 rfl,
   rfl, rfl, by norm_num [tenseHand],
   (pullTargetBehavior tenseHand zeroRand stMorph ⟨1, 2, 3⟩).2.1 rfl rfl
     (by norm_num [tenseHand]),
   (pullTargetBehavior grabHand zeroRand stMorph ⟨1, 2, 3⟩).2.2.2⟩

/-- Claim C7 (confirmed): a shape change replaces the targets buffer
wholesale and leaves the positions buffer untouched; on a subsequent tick
with no active explosion, zero tension and no grab, every particle
coordinate that differs from its target moves strictly closer to it. -/
theorem shapeChangeMorph (st : EngineState) (newTargets : List V3) (hand : HandData)
    (jit : ℕ → ℝ) (hg : hand.grabbing = false) (ht : hand.tension = 0)
    (hact : st.explosionActive = false)
    (hlp : st.positions.length = newTargets.length)
    (hlv : st.velocities.length = newTargets.length) :
    (setTargets st newTargets).positions = st.positions ∧
    (setTargets st newTargets).targets = newTargets ∧
    (tick hand jit (setTargets st newTargets)).targets = newTargets ∧
    (tick hand jit (setTargets st newTargets)).explosionActive = false ∧
    ∀ i, i < newTargets.length →
      ((st.positions.getD i V3.zero).x ≠ (newTargets.getD i V3.zero).x →
        |((tick hand jit (setTargets st newTargets)).positions.getD i V3.zero).x -
            (newTargets.getD i V3.zero).x| <
          |(st.positions.getD i V3.zero).x - (newTargets.getD i V3.zero).x|) ∧
      ((st.positions.getD i V3.zero).y ≠ (newTargets.getD i V3.zero).y →
        |((tick hand jit (setTargets st newTargets)).positions.getD i V3.zero).y -
            (newTargets.getD i V3.zero).y| <
          |(st.positions.getD i V3.zero).y - (newTargets.getD i V3.zero).y|) ∧
      ((st.positions.getD i V3.zero).z ≠ (newTargets.getD i V3.zero).z →
        |((tick hand jit (setTargets st newTargets)).positions.getD i V3.zero).z -
            (newTargets.getD i V3.zero).z| <
          |(st.positions.getD i V3.zero).z - (newTargets.getD i V3.zero).z|) := by
  have hfst : ∀ i, i < newTargets.length →
      (tick hand jit (setTargets st newTargets)).positions.getD i V3.zero =
        ⟨(st.positions.getD i V3.zero).x +
            ((newTargets.getD i V3.zero).x - (st.positions.getD i V3.zero).x) * lerpSpeed,
         (st.positions.getD i V3.zero).y +
            ((newTargets.getD i V3.zero).y - (st.positions.getD i V3.zero).y) * lerpSpeed,
         (st.positions.getD i V3.zero).z +
            ((newTargets.getD i V3.zero).z - (st.positions.getD i V3.zero).z) * lerpSpeed⟩ := by
    intro i hi
    have : (tick hand jit (setTargets st newTargets)).positions =
        (stepParticles hand false jit 0 st.positions st.velocities newTargets).1 := by
      simp only [tick, setTargets]
      rw [hact]
    rw [this]
    exact stepParticles_fst_getD_calm hand jit hg ht newTargets st.positions st.velocities
      0 i hlp hlv hi
  refine ⟨rfl, rfl, rfl, ?_, ?_⟩
  · have hl : LenOK (setTargets st newTargets) := ⟨hlp, hlv⟩
    have : (setTargets st newTargets).explosionActive = false := hact
    exact (tick_inactive_all hand jit (setTargets st newTargets) this hl).2
  · intro i hi
    rw [hfst i hi]
    exact ⟨fun h => closer_after_lerp h, fun h => closer_after_lerp h,
      fun h => closer_after_lerp h⟩

/-- Witness for C7 at a concrete one-particle state: position 1, target 0,
the tick moves the particle strictly closer. -/
theorem shapeChangeMorphWitness :
    idleHand.grabbing = false ∧ idleHand.tension = 0 ∧
    stMorph.explosionActive = false ∧
    stMorph.positions.length = [V3.zero].length ∧
    stMorph.velocities.length = [V3.zero].length ∧
    (setTargets stMorph [V3.zero]).positions = stMorph.positions ∧
    ∀ i, i < [V3.zero].length →
      ((stMorph.positions.getD i V3.zero).x ≠ ([V3.zero].getD i V3.zero).x →
        |((tick idleHand zeroRand (setTargets stMorph [V3.zero])).positions.getD i
              V3.zero).x - ([V3.zero].getD i V3.zero).x| <
          |(stMorph.positions.getD i V3.zero).x - ([V3.zero].getD i V3.zero).x|) :=
  ⟨rfl, rfl, rfl, rfl, rfl,
   (shapeChangeMorph stMorph [V3.zero] idleHand zeroRand rfl rfl rfl rfl rfl).1,
   fun i hi => ((shapeChangeMorph stMorph [V3.zero] idleHand zeroRand rfl rfl rfl rfl
     rfl).2.2.2.2 i hi).1⟩

/-- Claim C3 counterexample: from twist = 1, one absent-hand call moves
twist to 0.95 (decay rate 0.05), while one present two-hand call with zero
raw twist only moves it to 0.955 (active rate `smoothingSpeed * 0.3 =
0.045`). The absent-hand decay is therefore strictly faster than the
active smoothing for twist, refuting the claim that the decay blend is
slower than the active rate for every field. -/
theorem twistDecayFasterThanActive :
    (processResults twistOneSmoothed initPrev [] 5).smoothed.twist = 0.95 ∧
    (processResults twistOneSmoothed initPrev [defaultHand, defaultHand] 5).smoothed.twist
      = 0.955 ∧
    (0.95 : ℝ) < 0.955 := by
  have hr : rawTwistOf initPrev [defaultHand, defaultHand] = 0 := by
    simp [rawTwistOf, nthHand, defaultHand, initPrev]
  refine ⟨?_, ?_, by norm_num⟩
  · show lerp twistOneSmoothed.twist 0 0.05 = 0.95
    simp [lerp, twistOneSmoothed]
    norm_num
  · show lerp twistOneSmoothed.twist (rawTwistOf initPrev [defaultHand, defaultHand])
      (smoothingSpeed * 0.3) = 0.955
    rw [hr]
    simp [lerp, twistOneSmoothed, smoothingSpeed]
    norm_num

/-- Claim C3 (amended): with no hands detected, the emitted signal has
`isPresent = false` and `grabbing = false`, and each smoothed field decays
toward its neutral rest value by an exponential blend that can never
overshoot: the new deviation from rest is the old deviation times a fixed
factor in (0, 1). The decay rate (0.05, velocity 0.1) is slower than the
active smoothing rate for expansion, tension, rotation and velocity, but
for twist the decay rate 0.05 exceeds the active rate
`smoothingSpeed * 0.3 = 0.045`. -/
theorem absentDecayBehavior (s : Smoothed) (prev : PrevFrame) (t : ℝ) :
    (processResults s prev [] t).out.isPresent = false ∧
    (processResults s prev [] t).out.grabbing = false ∧
    (processResults s prev [] t).smoothed.expansion - 0.5 = (1 - 0.05) * (s.expansion - 0.5) ∧
    (processResults s prev [] t).smoothed.tension = (1 - 0.05) * s.tension ∧
    (processResults s prev [] t).smoothed.rotation = (1 - 0.05) * s.rotation ∧
    (processResults s prev [] t).smoothed.twist = (1 - 0.05) * s.twist ∧
    (processResults s prev [] t).smoothed.velocity = (1 - 0.1) * s.velocity ∧
    ((0.05 : ℝ) < smoothingSpeed ∧ (0.05 : ℝ) < smoothingSpeed * 0.5 ∧
      (0.1 : ℝ) < 0.3 ∧ smoothingSpeed * 0.3 < 0.05) := by
  refine ⟨rfl, rfl, ?_, ?_, ?_, ?_, ?_, by norm_num [smoothingSpeed]⟩
  · show lerp s.expansion 0.5 0.05 - 0.5 = (1 - 0.05) * (s.expansion - 0.5)
    simp only [lerp]
    ring
  · show lerp s.tension 0 0.05 = (1 - 0.05) * s.tension
    simp only [lerp]
    ring
  · show lerp s.rotation 0 0.05 = (1 - 0.05) * s.rotation
    simp only [lerp]
    ring
  · show lerp s.twist 0 0.05 = (1 - 0.05) * s.twist
    simp only [lerp]
    ring
  · show lerp s.velocity 0 0.1 = (1 - 0.1) * s.velocity
    simp only [lerp]
    ring

/-- Claim C8 (confirmed): with exactly two hands, the raw expansion blended
into the smoothing state is the Euclidean distance between the two wrist
landmarks remapped by `(dist - 0.1) * 1.5` and clamped to [0, 1]; with any
other number of present hands the raw expansion is the neutral 0.5. -/
theorem expansionDerivation (s : Smoothed) (prev : PrevFrame) (hands : List Hand) (t : ℝ)
    (hne : hands ≠ []) :
    (hands.length = 2 →
      (processResults s prev hands t).smoothed.expansion =
        lerp s.expansion
          (max 0 (min 1
            ((Real.sqrt ((((nthHand hands 0) 0).x - ((nthHand hands 1) 0).x) ^ 2 +
                (((nthHand hands 0) 0).y - ((nthHand hands 1) 0).y) ^ 2) - 0.1) * 1.5)))
          smoothingSpeed) ∧
    (hands.length ≠ 2 →
      (processResults s prev hands t).smoothed.expansion =
        lerp s.expansion 0.5 smoothingSpeed) := by
  cases hands with
  | nil => exact absurd rfl hne
  | cons a l =>
      have hexp : (processResults s prev (a :: l) t).smoothed.expansion =
          lerp s.expansion (rawExpansionOf (a :: l)) smoothingSpeed := rfl
      constructor
      · intro h2
        rw [hexp]
        simp only [rawExpansionOf, dist2D]
        rw [if_pos h2]
      · intro h2
        rw [hexp]
        simp only [rawExpansionOf]
        rw [if_neg h2]

/-- Witness for C8 at a concrete two-hand frame whose wrists coincide. -/
theorem expansionDerivationWitness :
    ([defaultHand, defaultHand] : List Hand) ≠ [] ∧
    ([defaultHand, defaultHand] : List Hand).length = 2 ∧
    (processResults initSmoothed initPrev [defaultHand, defaultHand] 0).smoothed.expansion =
      lerp initSmoothed.expansion
        (max 0 (min 1
          ((Real.sqrt ((((nthHand [defaultHand, defaultHand] 0) 0).x -
                ((nthHand [defaultHand, defaultHand] 1) 0).x) ^ 2 +
              (((nthHand [defaultHand, defaultHand] 0) 0).y -
                ((nthHand [defaultHand, defaultHand] 1) 0).y) ^ 2) - 0.1) * 1.5)))
        smoothingSpeed :=
  ⟨by simp, rfl,
   (expansionDerivation initSmoothed initPrev [defaultHand, defaultHand] 0 (by simp)).1 rfl⟩

lemma dist3_eq_zero_iff (p : V3) :
    Real.sqrt (p.x ^ 2 + p.y ^ 2 + p.z ^ 2) = 0 ↔ p = V3.zero := by
  rw [Real.sqrt_eq_zero']
  constructor
  · intro h
    have h0 : p.x ^ 2 + p.y ^ 2 + p.z ^ 2 = 0 := le_antisymm h (by positivity)
    have hx : p.x = 0 := by
      have : p.x ^ 2 ≤ 0 := by nlinarith [sq_nonneg p.y, sq_nonneg p.z]
      exact sq_eq_zero_iff.mp (le_antisymm this (sq_nonneg p.x))
    have hy : p.y = 0 := by
      have : p.y ^ 2 ≤ 0 := by nlinarith [sq_nonneg p.x, sq_nonneg p.z]
      exact sq_eq_zero_iff.mp (le_antisymm this (sq_nonneg p.y))
    have hz : p.z = 0 := by
      have : p.z ^ 2 ≤ 0 := by nlinarith [sq_nonneg p.x, sq_nonneg p.y]
      exact sq_eq_zero_iff.mp (le_antisymm this (sq_nonneg p.z))
    ext
    · exact hx
    · exact hy
    · exact hz
  · intro h
    rw [h]
    norm_num [V3.zero]

lemma triggerVel_at_zero (rand : ℕ → ℝ) (i : ℕ) : triggerVel rand i V3.zero = V3.zero := by
  simp [triggerVel, V3.zero, Real.sqrt_zero]

lemma vsmul_eq_zero_iff {c : ℝ} (hc : c ≠ 0) (p : V3) :
    vsmul c p = V3.zero ↔ p = V3.zero := by
  constructor
  · intro h
    have hx : p.x * c = 0 := congrArg V3.x h
    have hy : p.y * c = 0 := congrArg V3.y h
    have hz : p.z * c = 0 := congrArg V3.z h
    ext
    · exact (mul_eq_zero.mp hx).resolve_right hc
    · exact (mul_eq_zero.mp hy).resolve_right hc
    · exact (mul_eq_zero.mp hz).resolve_right hc
  · intro h
    rw [h]
    simp [vsmul, V3.zero]

/-- Claim C1 counterexample: a qualifying clap on a non-empty position
buffer whose single particle sits exactly at the origin sets the flag but
assigns that particle the all-zero velocity — the source's `|| 1` fallback
only replaces the zero denominator, it does not supply a fallback
direction, so not every particle receives a non-zero velocity. -/
theorem clapOriginParticleZeroVelocity :
    stOrigin.positions ≠ [] ∧
    (handleHandUpdate zeroRand clapData stOrigin).explosionActive = true ∧
    (handleHandUpdate zeroRand clapData stOrigin).velocities = [V3.zero] := by
  have hc : 0.4 < clapData.velocity ∧ clapData.expansion < 0.25 ∧
      stOrigin.explosionActive = false :=
    ⟨by norm_num [clapData], by norm_num [clapData], rfl⟩
  have hify : handleHandUpdate zeroRand clapData stOrigin =
      { stOrigin with
        velocities := mapIdxFrom (triggerVel zeroRand) 0 stOrigin.positions
        explosionActive := true } := by
    simp only [handleHandUpdate]
    rw [if_pos hc]
  refine ⟨by simp [stOrigin], by rw [hify], ?_⟩
  rw [hify]
  show mapIdxFrom (triggerVel zeroRand) 0 stOrigin.positions = [V3.zero]
  simp [stOrigin, mapIdxFrom, triggerVel_at_zero]

/-- Claim C1 (amended): the clap trigger fires exactly when the signal
velocity exceeds 0.4, the expansion is below 0.25 and no explosion is
active (in particular a trigger-satisfying update during an active
explosion leaves the whole state, velocities included, unchanged). When it
fires it sets the flag, leaves positions untouched, and assigns every
particle at non-zero distance from the origin a non-zero velocity that is
a positive scalar multiple of its current position — i.e. directed along
the radial unit vector — scaled by a random impulse in [1.4, 2.6); a
particle exactly at the origin receives the zero velocity. -/
theorem clapTriggerBehavior (rand : ℕ → ℝ) (data : HandData) (st : EngineState)
    (hr : ∀ i, 0 ≤ rand i ∧ rand i < 1) :
    (¬(0.4 < data.velocity ∧ data.expansion < 0.25 ∧ st.explosionActive = false) →
      handleHandUpdate rand data st = st) ∧
    ((0.4 < data.velocity ∧ data.expansion < 0.25 ∧ st.explosionActive = false) →
      (handleHandUpdate rand data st).explosionActive = true ∧
      (handleHandUpdate rand data st).positions = st.positions ∧
      (handleHandUpdate rand data st).velocities.length = st.positions.length ∧
      ∀ i, i < st.positions.length →
        (handleHandUpdate rand data st).velocities.getD i V3.zero =
          triggerVel rand i (st.positions.getD i V3.zero) ∧
        (st.positions.getD i V3.zero = V3.zero →
          (handleHandUpdate rand data st).velocities.getD i V3.zero = V3.zero) ∧
        (st.positions.getD i V3.zero ≠ V3.zero →
          0 < Real.sqrt ((st.positions.getD i V3.zero).x ^ 2 +
            (st.positions.getD i V3.zero).y ^ 2 + (st.positions.getD i V3.zero).z ^ 2) ∧
          1.4 ≤ explosionForce * (0.7 + rand i * 0.6) ∧
          explosionForce * (0.7 + rand i * 0.6) < 2.6 ∧
          (handleHandUpdate rand data st).velocities.getD i V3.zero =
            vsmul (explosionForce * (0.7 + rand i * 0.6) /
              Real.sqrt ((st.positions.getD i V3.zero).x ^ 2 +
                (st.positions.getD i V3.zero).y ^ 2 + (st.positions.getD i V3.zero).z ^ 2))
              (st.positions.getD i V3.zero) ∧
          (handleHandUpdate rand data st).velocities.getD i V3.zero ≠ V3.zero)) := by
  constructor
  · intro hn
    simp only [handleHandUpdate]
    rw [if_neg hn]
  · intro hc
    have hify : handleHandUpdate rand data st =
        { st with
          velocities := mapIdxFrom (triggerVel rand) 0 st.positions
          explosionActive := true } := by
      simp only [handleHandUpdate]
      rw [if_pos hc]
    refine ⟨by rw [hify], by rw [hify], ?_, ?_⟩
    · rw [hify]
      exact mapIdxFrom_length _ 0 _
    · intro i hi
      have hgd : (handleHandUpdate rand data st).velocities.getD i V3.zero =
          triggerVel rand i (st.positions.getD i V3.zero) := by
        rw [hify]
        simpa using mapIdxFrom_getD (triggerVel rand) st.positions 0 i hi
      refine ⟨hgd, ?_, ?_⟩
      · intro h0
        rw [hgd, h0]
        exact triggerVel_at_zero rand i
      · intro hne
        have hd : 0 < Real.sqrt ((st.positions.getD i V3.zero).x ^ 2 +
            (st.positions.getD i V3.zero).y ^ 2 + (st.positions.getD i V3.zero).z ^ 2) := by
          rw [Real.sqrt_pos]
          rcases lt_or_eq_of_le (by positivity : (0 : ℝ) ≤
              (st.positions.getD i V3.zero).x ^ 2 + (st.positions.getD i V3.zero).y ^ 2 +
                (st.positions.getD i V3.zero).z ^ 2) with h | h
          · exact h
          · exact absurd ((dist3_eq_zero_iff _).mp (by rw [← h, Real.sqrt_zero])) hne
        have hf1 : 1.4 ≤ explosionForce * (0.7 + rand i * 0.6) := by
          have := (hr i).1
          unfold explosionForce
          nlinarith
        have hf2 : explosionForce * (0.7 + rand i * 0.6) < 2.6 := by
          have := (hr i).2
          unfold explosionForce
          nlinarith
        have hveq : triggerVel rand i (st.positions.getD i V3.zero) =
            vsmul (explosionForce * (0.7 + rand i * 0.6) /
              Real.sqrt ((st.positions.getD i V3.zero).x ^ 2 +
                (st.positions.getD i V3.zero).y ^ 2 + (st.positions.getD i V3.zero).z ^ 2))
              (st.positions.getD i V3.zero) := by
          simp only [triggerVel, vsmul]
          rw [if_neg (ne_of_gt hd)]
          rw [V3.mk.injEq]
          refine ⟨by ring, by ring, by ring⟩
        have hcne : explosionForce * (0.7 + rand i * 0.6) /
            Real.sqrt ((st.positions.getD i V3.zero).x ^ 2 +
              (st.positions.getD i V3.zero).y ^ 2 + (st.positions.getD i V3.zero).z ^ 2) ≠ 0 :=
          ne_of_gt (div_pos (by linarith) hd)
        refine ⟨hd, hf1, hf2, by rw [hgd]; exact hveq, ?_⟩
        rw [hgd, hveq]
        intro hcontra
        exact hne ((vsmul_eq_zero_iff hcne _).mp hcontra)

/-- Witness for C1: firing the trigger on a one-particle buffer away from
the origin with the all-zero random stream activates the explosion. -/
theorem clapTriggerBehaviorWitness :
    (∀ i : ℕ, 0 ≤ zeroRand i ∧ zeroRand i < 1) ∧
    (0.4 < clapData.velocity ∧ clapData.expansion < 0.25 ∧
      stOffOrigin.explosionActive = false) ∧
    (handleHandUpdate zeroRand clapData stOffOrigin).explosionActive = true := by
  have h1 : ∀ i : ℕ, 0 ≤ zeroRand i ∧ zeroRand i < 1 := fun i => by norm_num [zeroRand]
  have h2 : 0.4 < clapData.velocity ∧ clapData.expansion < 0.25 ∧
      stOffOrigin.explosionActive = false :=
    ⟨by norm_num [clapData], by norm_num [clapData], rfl⟩
  exact ⟨h1, h2, ((clapTriggerBehavior zeroRand clapData stOffOrigin h1).2 h2).1⟩

/-- Claim C4 counterexample: from an active one-particle explosion whose
velocity is exactly at the threshold, a single tick decays it to
`0.008 * 0.92 = 0.00736`, clears the flag, and leaves that non-zero
residual velocity in the buffer — so `explosionVelocities` is not all-zero
while `explosionActive` is false. -/
theorem inactiveVelocitiesNotZero :
    (tick idleHand zeroRand stBoundary).explosionActive = false ∧
    (tick idleHand zeroRand stBoundary).velocities = [⟨0.00736, 0, 0⟩] ∧
    ((0.00736 : ℝ) ≠ 0) := by
  have hl : LenOK stBoundary := ⟨rfl, rfl⟩
  have hv : (tick idleHand zeroRand stBoundary).velocities =
      vscale explosionDecay stBoundary.velocities :=
    tick_active_velocities _ _ _ rfl hl
  have hv' : vscale explosionDecay stBoundary.velocities = [⟨0.00736, 0, 0⟩] := by
    show [vsmul explosionDecay ⟨0.008, 0, 0⟩] = [(⟨0.00736, 0, 0⟩ : V3)]
    simp only [vsmul, explosionDecay, List.cons.injEq, V3.mk.injEq]
    norm_num
  have hagg : agg ⟨0.00736, 0, 0⟩ = 0.00736 := by
    show |(0.00736 : ℝ)| + |(0 : ℝ)| + |(0 : ℝ)| = 0.00736
    rw [abs_zero, abs_of_pos (by norm_num : (0 : ℝ) < 0.00736)]
    norm_num
  have hmax : maxAgg [(⟨0.00736, 0, 0⟩ : V3)] = 0.00736 := by
    rw [maxAgg_cons, maxAgg_nil, hagg]
    exact max_eq_left (by norm_num)
  have hflag := tick_active_flag idleHand zeroRand stBoundary rfl hl
  rw [hv', hmax] at hflag
  refine ⟨?_, by rw [hv, hv'], by norm_num⟩
  cases h : (tick idleHand zeroRand stBoundary).explosionActive with
  | false => rfl
  | true => exact absurd (hflag.mp h) (by norm_num)

/-- Claim C4 (amended): in every reachable engine state, whenever
`explosionActive` is false each particle's aggregate explosion velocity
(the summed absolute per-axis components) is below the termination
threshold 0.008 — all-zero only holds at initialization, since
deactivation leaves non-zero residual velocities behind. Only the modelled
engine transitions (tick, signal update with the clap trigger, shape
change) write the state. -/
theorem inactiveVelocitiesBelowThreshold (st : EngineState) (h : Reachable st)
    (hoff : st.explosionActive = false) : maxAgg st.velocities < 0.008 := by
  revert hoff
  induction h with
  | start pos tgts =>
      intro _
      show maxAgg (List.replicate pos.length V3.zero) < 0.008
      rw [maxAgg_replicate_zero]
      norm_num
  | step hand jit hR ih =>
      rename_i stp
      intro hoff
      by_cases hact : stp.explosionActive = true
      · by_cases hc : maxAgg (stepParticles hand stp.explosionActive jit 0 stp.positions
            stp.velocities stp.targets).2 < 0.008
        · show maxAgg (tick hand jit stp).velocities < 0.008
          simpa [tick] using hc
        · exfalso
          have heq : (tick hand jit stp).explosionActive = stp.explosionActive := by
            simp only [tick]
            rw [if_neg]
            intro hcontra
            exact hc hcontra.2
          rw [heq, hact] at hoff
          simp at hoff
      · have hactf : stp.explosionActive = false := by
          revert hact
          cases stp.explosionActive <;> simp
        have hv : (tick hand jit stp).velocities =
            (stepParticles hand false jit 0 stp.positions stp.velocities stp.targets).2 := by
          simp only [tick]
          rw [hactf]
        show maxAgg (tick hand jit stp).velocities < 0.008
        rw [hv, maxAgg_lt_iff (by norm_num : (0 : ℝ) < 0.008)]
        intro w hw
        exact lt_of_le_of_lt
          (agg_le_maxAgg (stepParticles_snd_mem_inactive hand jit stp.targets stp.positions
            stp.velocities 0 w hw))
          (ih hactf)
  | signal rand data hR ih =>
      rename_i stp
      intro hoff
      by_cases hcond : 0.4 < data.velocity ∧ data.expansion < 0.25 ∧
          stp.explosionActive = false
      · exfalso
        have : (handleHandUpdate rand data stp).explosionActive = true := by
          simp only [handleHandUpdate]
          rw [if_pos hcond]
        rw [this] at hoff
        simp at hoff
      · have heq : handleHandUpdate rand data stp = stp := by
          simp only [handleHandUpdate]
          rw [if_neg hcond]
        rw [heq] at hoff ⊢
        exact ih hoff
  | reshape newTargets hR ih =>
      intro hoff
      exact ih hoff

/-- Witness for C4 at the empty start state. -/
theorem inactiveVelocitiesBelowThresholdWitness :
    Reachable (initEngine [] []) ∧ (initEngine [] []).explosionActive = false ∧
    maxAgg (initEngine [] []).velocities < 0.008 :=
  ⟨Reachable.start [] [], rfl,
   inactiveVelocitiesBelowThreshold (initEngine [] []) (Reachable.start [] []) rfl⟩

/-- Claim C2 (confirmed): from any active explosion state, repeated engine
ticks decay the velocity buffer geometrically; there is a tick count n ≥ 1
such that the explosion is active exactly before tick n and inactive from
then on — so `explosionActive` becomes false exactly once and stays false
(ticks never re-activate it; only a new qualifying trigger could). The
switch-off point is governed purely by the decayed maximum aggregate
velocity crossing the 0.008 threshold: up to n the maximum aggregate is
`explosionDecay ^ k` times the initial one, it is still at least 0.008 at
every tick before n, and drops below 0.008 exactly at n. -/
theorem explosionSelfTerminates (st : EngineState) (hands : ℕ → HandData)
    (jits : ℕ → ℕ → ℝ) (hact : st.explosionActive = true)
    (hl1 : st.positions.length = st.targets.length)
    (hl2 : st.velocities.length = st.targets.length) :
    ∃ n : ℕ, 1 ≤ n ∧
      (∀ k, (engineRun hands jits st k).explosionActive = true ↔ k < n) ∧
      (∀ k, k ≤ n → maxAgg (engineRun hands jits st k).velocities =
        explosionDecay ^ k * maxAgg st.velocities) ∧
      maxAgg (engineRun hands jits st n).velocities < 0.008 ∧
      (∀ k, 1 ≤ k → k < n → 0.008 ≤ maxAgg (engineRun hands jits st k).velocities) := by
  have hM0 : 0 ≤ maxAgg st.velocities := maxAgg_nonneg _
  have hdec0 : (0 : ℝ) ≤ explosionDecay := by rw [explosionDecay]; norm_num
  have hex : ∃ j, explosionDecay ^ (j + 1) * maxAgg st.velocities < 0.008 := by
    rcases eq_or_lt_of_le hM0 with h0 | hpos
    · exact ⟨0, by rw [← h0, mul_zero]; norm_num⟩
    · obtain ⟨j, hj⟩ := exists_pow_lt_of_lt_one
        (div_pos (by norm_num : (0 : ℝ) < 0.008) hpos)
        (by rw [explosionDecay]; norm_num : explosionDecay < 1)
      refine ⟨j, ?_⟩
      have h1 : explosionDecay ^ j * maxAgg st.velocities < 0.008 := by
        rw [← lt_div_iff hpos]
        exact hj
      have h2 : explosionDecay ^ (j + 1) ≤ explosionDecay ^ j :=
        pow_le_pow_of_le_one hdec0 (by rw [explosionDecay]; norm_num) (Nat.le_succ j)
      nlinarith
  set n := Nat.find hex + 1 with hn
  have key : ∀ k, k ≤ n →
      (engineRun hands jits st k).velocities =
        vscale (explosionDecay ^ k) st.velocities ∧
      LenOK (engineRun hands jits st k) ∧
      ((engineRun hands jits st k).explosionActive = true ↔ k < n) := by
    intro k
    induction k with
    | zero =>
        intro _
        refine ⟨?_, ⟨hl1, hl2⟩, ?_⟩
        · rw [pow_zero, vscale_one]
          rfl
        · rw [engineRun_zero, hact]
          simp only [true_iff]
          omega
    | succ k ih =>
        intro hk1
        have hk : k ≤ n := Nat.le_of_succ_le hk1
        have hklt : k < n := hk1
        obtain ⟨hvel, hlen, hflag⟩ := ih hk
        have hAct : (engineRun hands jits st k).explosionActive = true := hflag.mpr hklt
        have hstep := engineRun_succ hands jits st k
        have hvel' : (engineRun hands jits st (k + 1)).velocities =
            vscale (explosionDecay ^ (k + 1)) st.velocities := by
          rw [hstep, tick_active_velocities _ _ _ hAct hlen, hvel, vscale_vscale, ← pow_succ]
        have hmm : maxAgg (vscale explosionDecay
            (engineRun hands jits st k).velocities) =
            explosionDecay ^ (k + 1) * maxAgg st.velocities := by
          rw [hvel, vscale_vscale, ← pow_succ, maxAgg_vscale (pow_nonneg hdec0 _)]
        have hflag' : (engineRun hands jits st (k + 1)).explosionActive = true ↔
            (k + 1) < n := by
          rw [hstep]
          have h := tick_active_flag (hands k) (jits k) (engineRun hands jits st k) hAct hlen
          rw [hmm] at h
          rw [h]
          constructor
          · intro hge
            rcases lt_or_eq_of_le hk1 with hlt | heq
            · exact hlt
            · exfalso
              rw [heq, hn] at hge
              exact absurd hge (not_le.mpr (Nat.find_spec hex))
          · intro hlt
            have hkfind : k < Nat.find hex := by omega
            exact le_of_not_lt (Nat.find_min hex hkfind)
        refine ⟨hvel', ?_, hflag'⟩
        rw [hstep]
        exact tick_lenOK _ _ _ hlen
  have tail : ∀ m,
      (engineRun hands jits st (n + m)).velocities =
        (engineRun hands jits st n).velocities ∧
      (engineRun hands jits st (n + m)).explosionActive = false ∧
      LenOK (engineRun hands jits st (n + m)) := by
    intro m
    induction m with
    | zero =>
        obtain ⟨hv, hl, hf⟩ := key n le_rfl
        refine ⟨rfl, ?_, hl⟩
        cases hb : (engineRun hands jits st n).explosionActive with
        | false => rfl
        | true => exact absurd (hf.mp hb) (lt_irrefl n)
    | succ m ih =>
        obtain ⟨hv, hf, hl⟩ := ih
        have hstep : engineRun hands jits st (n + (m + 1)) =
            tick (hands (n + m)) (jits (n + m)) (engineRun hands jits st (n + m)) := rfl
        obtain ⟨hv2, hf2⟩ := tick_inactive_all (hands (n + m)) (jits (n + m)) _ hf hl
        refine ⟨?_, ?_, ?_⟩
        · rw [hstep, hv2, hv]
        · rw [hstep, hf2]
        · rw [hstep]
          exact tick_lenOK _ _ _ hl
  refine ⟨n, by omega, ?_, ?_, ?_, ?_⟩
  · intro k
    rcases le_or_lt k n with hk | hk
    · exact (key k hk).2.2
    · obtain ⟨m, rfl⟩ := Nat.exists_eq_add_of_le (le_of_lt hk)
      rw [(tail m).2.1]
      simp only [Bool.false_eq_true, false_iff]
      omega
  · intro k hk
    rw [(key k hk).1, maxAgg_vscale (pow_nonneg hdec0 _)]
  · rw [(key n le_rfl).1, maxAgg_vscale (pow_nonneg hdec0 _), hn]
    exact Nat.find_spec hex
  · intro k hk1 hkn
    obtain ⟨j, rfl⟩ := Nat.exists_eq_add_of_le hk1
    rw [(key (1 + j) (le_of_lt hkn)).1, maxAgg_vscale (pow_nonneg hdec0 _)]
    have hjfind : j < Nat.find hex := by omega
    have hnot := Nat.find_min hex hjfind
    rw [Nat.add_comm 1 j]
    exact le_of_not_lt hnot

/-- Witness for C2 at a concrete one-particle active state. -/
theorem explosionSelfTerminatesWitness :
    stImpulse.explosionActive = true ∧
    stImpulse.positions.length = stImpulse.targets.length ∧
    stImpulse.velocities.length = stImpulse.targets.length ∧
    ∃ n : ℕ, 1 ≤ n ∧
      (∀ k, (engineRun idleHands zeroJits stImpulse k).explosionActive = true ↔ k < n) := by
  obtain ⟨n, h1, h2, _⟩ := explosionSelfTerminates stImpulse idleHands zeroJits rfl rfl rfl
  exact ⟨rfl, rfl, rfl, n, h1, h2⟩

/-- Claim C5 (confirmed): for every landmark input whose coordinates lie in
normalized space (including the extremes), one extractor update keeps every
smoothed field inside its documented range — expansion, tension, twist in
[0, 1]; rotation, centerX, centerY in [-1, 1] — and the emitted signal
satisfies the same bounds; since the initial state satisfies the ranges,
the bounds hold after every update call by induction. -/
theorem signalBounds (s : Smoothed) (prev : PrevFrame) (hands : List Hand) (t : ℝ)
    (hh : HandsInUnit hands) (hs : SmoothedInRange s) :
    SmoothedInRange (processResults s prev hands t).smoothed ∧
    OutInRange (processResults s prev hands t).out := by
  obtain ⟨hse0, hse1, hst0, hst1, hsw0, hsw1, hsr0, hsr1, hsx0, hsx1, hsy0, hsy1,
    hsv0, hsv1⟩ := hs
  cases hands with
  | nil =>
      have h1 := lerp_mem ⟨hse0, hse1⟩
        (⟨by norm_num, by norm_num⟩ : (0 : ℝ) ≤ 0.5 ∧ (0.5 : ℝ) ≤ 1)
        (by norm_num : (0 : ℝ) ≤ 0.05) (by norm_num : (0.05 : ℝ) ≤ 1)
      have h2 := lerp_mem ⟨hst0, hst1⟩
        (⟨le_refl 0, by norm_num⟩ : (0 : ℝ) ≤ 0 ∧ (0 : ℝ) ≤ 1)
        (by norm_num : (0 : ℝ) ≤ 0.05) (by norm_num : (0.05 : ℝ) ≤ 1)
      have h6 := lerp_mem ⟨hsw0, hsw1⟩
        (⟨le_refl 0, by norm_num⟩ : (0 : ℝ) ≤ 0 ∧ (0 : ℝ) ≤ 1)
        (by norm_num : (0 : ℝ) ≤ 0.05) (by norm_num : (0.05 : ℝ) ≤ 1)
      have h5 := lerp_mem ⟨hsr0, hsr1⟩
        (⟨by norm_num, by norm_num⟩ : (-1 : ℝ) ≤ 0 ∧ (0 : ℝ) ≤ 1)
        (by norm_num : (0 : ℝ) ≤ 0.05) (by norm_num : (0.05 : ℝ) ≤ 1)
      have hv := lerp_mem ⟨hsv0, hsv1⟩
        (⟨le_refl 0, by norm_num⟩ : (0 : ℝ) ≤ 0 ∧ (0 : ℝ) ≤ 1)
        (by norm_num : (0 : ℝ) ≤ 0.1) (by norm_num : (0.1 : ℝ) ≤ 1)
      exact ⟨⟨h1.1, h1.2, h2.1, h2.2, h6.1, h6.2, h5.1, h5.2, hsx0, hsx1, hsy0, hsy1,
          hv.1, hv.2⟩,
        ⟨h1.1, h1.2, h2.1, h2.2, h6.1, h6.2, h5.1, h5.2, hsx0, hsx1, hsy0, hsy1⟩⟩
  | cons a l =>
      have hne : (a :: l : List Hand) ≠ [] := by simp
      have hre := rawExpansionOf_mem (a :: l)
      have hrt := rawTensionOf_mem (a :: l) hne
      have hrr := rawRotationOf_mem prev (a :: l)
      have hrw := rawTwistOf_mem prev (a :: l)
      have hcx := centerPreX_mem (a :: l) hne hh
      have hcy := centerPreY_mem (a :: l) hne hh
      have hmx : -1 ≤ (1 - centerPreX (a :: l)) * 2 - 1 ∧
          (1 - centerPreX (a :: l)) * 2 - 1 ≤ 1 := by
        constructor <;> nlinarith [hcx.1, hcx.2]
      have hmy : -1 ≤ -((1 - centerPreY (a :: l)) * 2 - 1) ∧
          -((1 - centerPreY (a :: l)) * 2 - 1) ≤ 1 := by
        constructor <;> nlinarith [hcy.1, hcy.2]
      have hv := velocityStep_mem s prev (centerPreX (a :: l)) (centerPreY (a :: l)) t
        ⟨hsv0, hsv1⟩
      have h1 := lerp_mem ⟨hse0, hse1⟩ hre
        (by norm_num [smoothingSpeed] : (0 : ℝ) ≤ smoothingSpeed)
        (by norm_num [smoothingSpeed] : smoothingSpeed ≤ 1)
      have h2 := lerp_mem ⟨hst0, hst1⟩ hrt
        (by norm_num [smoothingSpeed] : (0 : ℝ) ≤ smoothingSpeed)
        (by norm_num [smoothingSpeed] : smoothingSpeed ≤ 1)
      have h3 := lerp_mem ⟨hsx0, hsx1⟩ hmx
        (by norm_num [smoothingSpeed] : (0 : ℝ) ≤ smoothingSpeed)
        (by norm_num [smoothingSpeed] : smoothingSpeed ≤ 1)
      have h4 := lerp_mem ⟨hsy0, hsy1⟩ hmy
        (by norm_num [smoothingSpeed] : (0 : ℝ) ≤ smoothingSpeed)
        (by norm_num [smoothingSpeed] : smoothingSpeed ≤ 1)
      have h5 := lerp_mem ⟨hsr0, hsr1⟩ hrr
        (by norm_num [smoothingSpeed] : (0 : ℝ) ≤ smoothingSpeed * 0.5)
        (by norm_num [smoothingSpeed] : smoothingSpeed * 0.5 ≤ 1)
      have h6 := lerp_mem ⟨hsw0, hsw1⟩ hrw
        (by norm_num [smoothingSpeed] : (0 : ℝ) ≤ smoothingSpeed * 0.3)
        (by norm_num [smoothingSpeed] : smoothingSpeed * 0.3 ≤ 1)
      exact ⟨⟨h1.1, h1.2, h2.1, h2.2, h6.1, h6.2, h5.1, h5.2, h3.1, h3.2, h4.1, h4.2,
          hv.1, hv.2⟩,
        ⟨h1.1, h1.2, h2.1, h2.2, h6.1, h6.2, h5.1, h5.2, h3.1, h3.2, h4.1, h4.2⟩⟩

/-- Witness for C5 at the initial state and an empty frame. -/
theorem signalBoundsWitness :
    HandsInUnit [] ∧ SmoothedInRange initSmoothed ∧
    SmoothedInRange (processResults initSmoothed initPrev [] 0).smoothed := by
  have h1 : HandsInUnit ([] : List Hand) := by
    intro h hmem
    exact absurd hmem (List.not_mem_nil h)
  have h2 : SmoothedInRange initSmoothed := by
    simp only [SmoothedInRange, initSmoothed]
    norm_num
  exact ⟨h1, h2, (signalBounds initSmoothed initPrev [] 0 h1 h2).1⟩

/-- Claim C6 failing input: the same one-hand frame (all landmarks at
(1/3, 1/2)) processed at t = 600 ms and again at t = 700 ms. The center is
stationary, so the claimed velocity — displacement of the center divided by
elapsed time — is 0; but the source compares the current raw-space center
against `prevFrame.centerX/Y`, which it stored in mirrored screen
coordinates, so the stored previous center (1/3, 0) differs from the raw
center (1/3, 1/2) of the identical frame and the emitted smoothed velocity
comes out 0.3 ≠ 0. -/
theorem stationaryCenterNonzeroVelocity :
    centerPreX [constHand] = 1 / 3 ∧ centerPreY [constHand] = 1 / 2 ∧
    (processResults initSmoothed initPrev [constHand] 600).prev.centerX = 1 / 3 ∧
    (processResults initSmoothed initPrev [constHand] 600).prev.centerY = 0 ∧
    (processResults
        (processResults initSmoothed initPrev [constHand] 600).smoothed
        (processResults initSmoothed initPrev [constHand] 600).prev
        [constHand] 700).out.velocity = 0.3 ∧
    ((0.3 : ℝ) ≠ 0) := by
  have hcx : centerPreX [constHand] = 1 / 3 := by
    simp [centerPreX, constHand]
  have hcy : centerPreY [constHand] = 1 / 2 := by
    simp [centerPreY, constHand]
  have hprev1 : (processResults initSmoothed initPrev [constHand] 600).prev =
      ⟨1 / 3, 0, 600, 0, 0⟩ := by
    show (⟨(1 - centerPreX [constHand]) * 2 - 1, -((1 - centerPreY [constHand]) * 2 - 1),
        600,
        if ([constHand] : List Hand).length = 2 then (nthHand [constHand] 0 0).y
          else initPrev.hand1Y,
        if ([constHand] : List Hand).length = 2 then (nthHand [constHand] 1 0).y
          else initPrev.hand2Y⟩ : PrevFrame) = ⟨1 / 3, 0, 600, 0, 0⟩
    rw [hcx, hcy]
    norm_num [initPrev]
  have hvel1 : (processResults initSmoothed initPrev [constHand] 600).smoothed.velocity
      = 0 := by
    show velocityStep initSmoothed initPrev (centerPreX [constHand])
      (centerPreY [constHand]) 600 = 0
    simp only [velocityStep, initPrev, initSmoothed]
    rw [if_neg (by norm_num)]
  have haccept : ∀ s : Smoothed, s.velocity = 0 →
      velocityStep s ⟨1 / 3, 0, 600, 0, 0⟩ (1 / 3) (1 / 2) 700 = 0.3 := by
    intro s hv
    have hs : Real.sqrt (((1 : ℝ) / 3 - 1 / 3) ^ 2 + ((1 : ℝ) / 2 - 0) ^ 2) = 1 / 2 := by
      rw [show (((1 : ℝ) / 3 - 1 / 3) ^ 2 + ((1 : ℝ) / 2 - 0) ^ 2) = (1 / 2) ^ 2 by
          norm_num,
        Real.sqrt_sq (by norm_num : (0 : ℝ) ≤ 1 / 2)]
    simp only [velocityStep]
    rw [if_pos (by norm_num)]
    rw [show ((700 : ℝ) - (⟨1 / 3, 0, 600, 0, 0⟩ : PrevFrame).timestamp) / 1000 = 0.1 by
        norm_num]
    rw [show ((1 : ℝ) / 3 - (⟨1 / 3, 0, 600, 0, 0⟩ : PrevFrame).centerX) = 1 / 3 - 1 / 3 by
        norm_num]
    rw [show ((1 : ℝ) / 2 - (⟨1 / 3, 0, 600, 0, 0⟩ : PrevFrame).centerY) = 1 / 2 - 0 by
        norm_num]
    rw [hs, hv]
    rw [show min 1 ((1 : ℝ) / 2 / 0.1 * 2) = 1 from min_eq_left (by norm_num)]
    simp [lerp]
  have hvel2 : (processResults
      (processResults initSmoothed initPrev [constHand] 600).smoothed
      (processResults initSmoothed initPrev [constHand] 600).prev
      [constHand] 700).out.velocity = 0.3 := by
    show velocityStep (processResults initSmoothed initPrev [constHand] 600).smoothed
      (processResults initSmoothed initPrev [constHand] 600).prev
      (centerPreX [constHand]) (centerPreY [constHand]) 700 = 0.3
    rw [hprev1, hcx, hcy]
    exact haccept _ hvel1
  refine ⟨hcx, hcy, by rw [hprev1], by rw [hprev1], hvel2, by norm_num⟩

end
